import Mathlib

/-
Verification development for the openapi-postman-sync repository.

The repository has two engines:
  * the Collection Merger (scripts/merge-collections.js), embedded below in
    namespace `Merge` directly from the source;
  * the Value Sanitizer (scripts/value-sanitizer.js).  That file is not part
    of the source tree we were given (only its test suite is), so its
    definitions are modelled from the specification, in namespace `Sanitizer`;
    each such definition carries a doc comment saying so.

JavaScript strings are Lean `String`s; JS `undefined`/missing fields are
`Option`; JS numbers appearing in the claims are integers and are modelled
as `Int`.  Char-level helpers are written by structural recursion so that
every definition evaluates inside the kernel.
-/

namespace OPS

/-- Lowercase a single ASCII letter (other characters unchanged). -/
def lowerChar (c : Char) : Char :=
  match c with
  | 'A' => 'a' | 'B' => 'b' | 'C' => 'c' | 'D' => 'd' | 'E' => 'e' | 'F' => 'f'
  | 'G' => 'g' | 'H' => 'h' | 'I' => 'i' | 'J' => 'j' | 'K' => 'k' | 'L' => 'l'
  | 'M' => 'm' | 'N' => 'n' | 'O' => 'o' | 'P' => 'p' | 'Q' => 'q' | 'R' => 'r'
  | 'S' => 's' | 'T' => 't' | 'U' => 'u' | 'V' => 'v' | 'W' => 'w' | 'X' => 'x'
  | 'Y' => 'y' | 'Z' => 'z' | c => c

/-- Uppercase a single ASCII letter (other characters unchanged). -/
def upperChar (c : Char) : Char :=
  match c with
  | 'a' => 'A' | 'b' => 'B' | 'c' => 'C' | 'd' => 'D' | 'e' => 'E' | 'f' => 'F'
  | 'g' => 'G' | 'h' => 'H' | 'i' => 'I' | 'j' => 'J' | 'k' => 'K' | 'l' => 'L'
  | 'm' => 'M' | 'n' => 'N' | 'o' => 'O' | 'p' => 'P' | 'q' => 'Q' | 'r' => 'R'
  | 's' => 'S' | 't' => 'T' | 'u' => 'U' | 'v' => 'V' | 'w' => 'W' | 'x' => 'X'
  | 'y' => 'Y' | 'z' => 'Z' | c => c

def toLowerStr (s : String) : String := String.mk (s.data.map lowerChar)

def toUpperStr (s : String) : String := String.mk (s.data.map upperChar)

/-- Character-list prefix test. -/
def startsWithL : List Char → List Char → Bool
  | [], _ => true
  | _ :: _, [] => false
  | p :: ps, c :: cs => p == c && startsWithL ps cs

/-- String prefix test (JS `String.prototype.startsWith`). -/
def strStartsWith (pre s : String) : Bool := startsWithL pre.data s.data

/-- String suffix test (JS `String.prototype.endsWith`). -/
def strEndsWith (suf s : String) : Bool := startsWithL suf.data.reverse s.data.reverse

/-- True iff the line trims to the empty string (JS `line.trim() === ''`). -/
def isBlankLine (s : String) : Bool := s.data.all Char.isWhitespace

/-- JS `Array.prototype.join('/')`. -/
def joinSlash : List String → String
  | [] => ""
  | [s] => s
  | s :: rest => s ++ "/" ++ joinSlash rest

/-- JS `parentPath ? parentPath + '/' + name : name`. -/
def joinPath (parentPath name : String) : String :=
  if parentPath = "" then name else parentPath ++ "/" ++ name

end OPS

namespace Merge

open OPS

/-- Postman script object: `script.exec` is an array of source lines; either
level may be absent in JS (modelled with `Option`). -/
structure Script where
  exec : Option (List String)
deriving DecidableEq

/-- Postman event: a listen type ("prerequest" / "test") carrying a script. -/
structure Event where
  listen : String
  script : Option Script
deriving DecidableEq

/-- A Postman URL `path` field: either a plain string or an array of segments. -/
inductive UPath where
  | pstr (s : String)
  | parr (segs : List String)
deriving DecidableEq

/-- A Postman `request.url`: either a raw string or an object with a `path`. -/
inductive JUrl where
  | ustr (s : String)
  | uobj (path : Option UPath)
deriving DecidableEq

/-- The `request` field of a request item (method may be a non-string in JS,
modelled as `none`). -/
structure RequestDef where
  method : Option String
  url : Option JUrl
deriving DecidableEq

/- A collection tree node: a folder (it has an `item` array) or a leaf
request item.  `response` stands for the remaining payload fields of a leaf
(body, examples, ...) that the merger copies verbatim. -/
mutual
inductive Item where
  | folder (name : String) (children : Items)
  | leaf (name : String) (request : Option RequestDef) (event : Option (List Event))
      (response : List String)
inductive Items where
  | nil
  | cons (head : Item) (tail : Items)
end

def itemName : Item → String
  | .folder n _ => n
  | .leaf n _ _ _ => n

def itemRequest : Item → Option RequestDef
  | .folder _ _ => none
  | .leaf _ r _ _ => r

def itemEvent : Item → Option (List Event)
  | .folder _ _ => none
  | .leaf _ _ e _ => e

/-- A collection-level variable entry. -/
structure CollVar where
  key : String
  value : String
deriving DecidableEq

/-- A Postman collection: `_postman_id`, the item tree, optional
collection-level `event` array, optional `variable` array (field called
`vars` here because `variable` is a Lean keyword). -/
structure Collection where
  postmanId : Option String
  item : Items
  event : Option (List Event)
  vars : Option (List CollVar)

/-- merge-collections.js `generateItemKey`: `METHOD:urlPath` for request
items (path segments joined with '/', no other normalization), or the
display path for leaves without a `request`. -/
def generateItemKey (item : Item) (itemPath : String) : String :=
  match itemRequest item with
  | some req =>
    let method := req.method.getD "GET"
    let urlPath :=
      match req.url with
      | none => ""
      | some (.ustr s) => s
      | some (.uobj none) => ""
      | some (.uobj (some (.pstr s))) => s
      | some (.uobj (some (.parr segs))) => joinSlash segs
    method ++ ":" ++ urlPath
  | none => itemPath

/- merge-collections.js `buildItemsMap`: walk the tree, index leaf items by
key together with their display path.  JS object assignment overwrites, so
newest entries shadow older ones; we model the map as an association list
with the newest entry in front and first-match lookup. -/
mutual
def buildItemsMap : Items → String → List (String × (Item × String)) → List (String × (Item × String))
  | .nil, _, m => m
  | .cons it rest, parentPath, m =>
      buildItemsMap rest parentPath (buildItemsMapOne it parentPath m)
def buildItemsMapOne : Item → String → List (String × (Item × String)) → List (String × (Item × String))
  | it, parentPath, m =>
      match it with
      | .folder n ch => buildItemsMap ch (joinPath parentPath n) m
      | .leaf n _ _ _ =>
          let itemPath := joinPath parentPath n
          (generateItemKey it itemPath, (it, itemPath)) :: m
end

def lookupMap (m : List (String × (Item × String))) (k : String) : Option (Item × String) :=
  (m.find? (fun kv => kv.1 == k)).map (fun kv => kv.2)

/-- merge-collections.js `hasNonEmptyScript`: the event has a script with a
non-empty `exec` array in which some line is non-blank after trimming. -/
def hasNonEmptyScript (e : Event) : Bool :=
  match e.script with
  | some sc =>
      match sc.exec with
      | some lines => !lines.isEmpty && lines.any (fun l => !(isBlankLine l))
      | none => false
  | none => false

/-- One step of the event-preservation loop in `mergeRequest`: for a previous
event `pe` (already known to have a non-empty script), find the first merged
event with the same listen type (JS `findIndex`); if there is none, push `pe`
at the end; if there is one with an empty script, replace it in place
(JS `merged.event[i] = pe`); otherwise leave the list unchanged. -/
def mergeOne (pe : Event) : List Event → List Event
  | [] => [pe]
  | ce :: rest =>
      if ce.listen == pe.listen then
        (if hasNonEmptyScript ce then ce :: rest else pe :: rest)
      else ce :: mergeOne pe rest

/-- The `for (const existingEvent of existingRequest.event)` loop of
`mergeRequest`: previous events with empty scripts are skipped, the others
are merged one by one into the accumulated event list. -/
def mergeEvents : List Event → List Event → List Event
  | acc, [] => acc
  | acc, pe :: rest => mergeEvents (if hasNonEmptyScript pe then mergeOne pe acc else acc) rest

/-- merge-collections.js `mergeRequest`: deep-copy the candidate request
(pure value copy here), then splice in the previous request's events. -/
def mergeRequest (newRequest existingRequest : Item) : Item :=
  match itemEvent existingRequest with
  | some pes =>
      if pes.isEmpty then newRequest
      else
        match newRequest with
        | .leaf n r e resp => .leaf n r (some (mergeEvents (e.getD []) pes)) resp
        | .folder n ch => .folder n ch
  | none => newRequest

/- merge-collections.js `mergeItems`: walk the candidate tree, recursing
into folders and merging each leaf with its keyed match (if any) from the
previous collection's item map. -/
mutual
def mergeItems : Items → List (String × (Item × String)) → String → Items
  | .nil, _, _ => .nil
  | .cons ni rest, m, parentPath =>
      .cons (mergeItem ni m parentPath) (mergeItems rest m parentPath)
def mergeItem : Item → List (String × (Item × String)) → String → Item
  | ni, m, parentPath =>
      match ni with
      | .folder n ch => .folder n (mergeItems ch m (joinPath parentPath n))
      | .leaf n r e resp =>
          let itemPath := joinPath parentPath n
          match lookupMap m (generateItemKey (.leaf n r e resp) itemPath) with
          | some ex => mergeRequest (.leaf n r e resp) ex.1
          | none => .leaf n r e resp
end

/-- One collection-level script-preservation block of `merge` (lines 90-112 of
merge-collections.js), for listen type `t` ("prerequest" or "test") guarded by
its toggle: if the previous collection has an event of type `t` and the merged
collection has none of that type yet, append the previous event (the merged
event array is created first when absent). -/
def collEventStep (t : String) (toggle : Bool) (prevEvent cur : Option (List Event)) :
    Option (List Event) :=
  if toggle then
    match prevEvent with
    | some pes =>
        match pes.find? (fun e => e.listen == t) with
        | some pe =>
            let base := cur.getD []
            match base.find? (fun e => e.listen == t) with
            | none => some (base ++ [pe])
            | some _ => some base
        | none => cur
    | none => cur
  else cur

/-- The two collection-level script-preservation blocks of `merge`, run in
source order (prerequest first, then test). -/
def mergeTopEvents (pp pt : Bool) (prevEvent candEvent : Option (List Event)) :
    Option (List Event) :=
  collEventStep "test" pt prevEvent (collEventStep "prerequest" pp prevEvent candEvent)

/-- JS `a || b` on optional strings: the empty string is falsy. -/
def jsOrStr (a b : Option String) : Option String :=
  match a with
  | some s => if s = "" then b else some s
  | none => b

/-- The variable-preservation block of `merge` (lines 115-129): previous
variables whose key is not among the candidate's variable keys are appended. -/
def mergeTopVars (pv : Bool) (prevVars candVars : Option (List CollVar)) :
    Option (List CollVar) :=
  if pv then
    match prevVars with
    | some pvs =>
        let candKeys := (candVars.getD []).map (fun v => v.key)
        some ((candVars.getD []) ++ pvs.filter (fun v => !(candKeys.contains v.key)))
    | none => candVars
  else candVars

/-- merge-collections.js `merge`, main path (both files present), with the
three preserve toggles.  The JS builds `mergedCollection = {...newCollection,
info: {...}, item: mergedItems}`: the object spread copies the *references* to
the candidate's top-level `event` and `variable` arrays, and the preservation
blocks then `push` into those arrays in place.  The model therefore returns
both the merged collection and the post-run state of the candidate: when the
candidate had an `event` (resp. `variable`) array, that array is aliased and
ends up holding the merged value; when it had none, a fresh array was created
for the merged collection and the candidate is untouched.  Request-tree
merging (`mergeItems`/`mergeRequest`) copies nodes (`_.cloneDeep`) and never
writes into candidate nodes, so the item tree of the candidate is unchanged. -/
def mergeTop (pp pt pv : Bool) (cand prev : Collection) : Collection × Collection :=
  let prevMap := buildItemsMap prev.item "" []
  let mergedItems := mergeItems cand.item prevMap ""
  let mE := mergeTopEvents pp pt prev.event cand.event
  let mV := mergeTopVars pv prev.vars cand.vars
  let merged : Collection :=
    { postmanId := jsOrStr prev.postmanId cand.postmanId
      item := mergedItems
      event := mE
      vars := mV }
  let candAfter : Collection :=
    { postmanId := cand.postmanId
      item := cand.item
      event := if cand.event.isSome then mE else none
      vars := if cand.vars.isSome then mV else cand.vars }
  (merged, candAfter)

/-- merge-collections.js `merge` entry behavior on the previous collection:
when the existing collection file is missing, the new collection is returned
as-is (first-run bootstrap); otherwise the main merge path runs. -/
def mergeRun (pp pt pv : Bool) (cand : Collection) (prev : Option Collection) : Collection :=
  match prev with
  | none => cand
  | some p => (mergeTop pp pt pv cand p).1

/- merge-collections.js `calculateDiff`, inner `collectEndpoints`: gather the
leaf display-path strings (folder names joined with '/', ending in the leaf's
own name) in depth-first order. -/
mutual
def collectEndpoints : Items → String → List String
  | .nil, _ => []
  | .cons it rest, pre => collectEndpointsOne it pre ++ collectEndpoints rest pre
def collectEndpointsOne : Item → String → List String
  | .folder n ch, pre => collectEndpoints ch (pre ++ n ++ "/")
  | .leaf n _ _ _, pre => [pre ++ n]
end

/-- JS `Set` insertion: keep the first occurrence of each string. -/
def dedupAux : List String → List String → List String
  | [], _ => []
  | x :: rest, seen =>
      if seen.contains x then dedupAux rest seen else x :: dedupAux rest (x :: seen)

def dedupFirst (l : List String) : List String := dedupAux l []

/-- The diff report `{added, removed, preserved}`. -/
structure DiffResult where
  added : List String
  removed : List String
  preserved : List String
deriving DecidableEq

/-- merge-collections.js `calculateDiff`: endpoint display-path sets of the
two trees, then the three filter-based components. -/
def calculateDiff (existingCollection mergedCollection : Collection) : DiffResult :=
  let existingEndpoints := dedupFirst (collectEndpoints existingCollection.item "")
  let mergedEndpoints := dedupFirst (collectEndpoints mergedCollection.item "")
  { added := mergedEndpoints.filter (fun e => !(existingEndpoints.contains e))
    removed := existingEndpoints.filter (fun e => !(mergedEndpoints.contains e))
    preserved := mergedEndpoints.filter (fun e => existingEndpoints.contains e) }

/-- JS `events.find(e => e.listen === t)`. -/
def findByListen (t : String) (l : List Event) : Option Event :=
  l.find? (fun e => e.listen == t)

/-- The payload fields of a leaf item (folders have none). -/
def itemResponse : Item → List String
  | .folder _ _ => []
  | .leaf _ _ _ resp => resp

/-- Concrete data used in witnesses and counterexamples below. -/
def prevTestEv : Event := ⟨"test", some ⟨some ["pm.test(\"ok\")"]⟩⟩

def prevPreEv : Event := ⟨"prerequest", some ⟨some ["setup()"]⟩⟩

def candEmptyTestEv : Event := ⟨"test", some ⟨some ["", "  "]⟩⟩

def candPreEmptyEv : Event := ⟨"prerequest", some ⟨some ["", " "]⟩⟩

def prevPreFullEv : Event := ⟨"prerequest", some ⟨some ["init()"]⟩⟩

def prevTestEmptyEv : Event := ⟨"test", some ⟨some []⟩⟩

def candX : Collection := ⟨none, .nil, none, some [⟨"a", "1"⟩]⟩

def prevX : Collection := ⟨none, .nil, none, some [⟨"b", "2"⟩]⟩

def leafA : Item := .leaf "A" none none []

def leafB : Item := .leaf "B" none none []

def leafC : Item := .leaf "C" none none []

def prevColl : Collection := ⟨none, .cons leafA (.cons leafB .nil), none, none⟩

def merColl : Collection := ⟨none, .cons leafB (.cons leafC .nil), none, none⟩

/-- A request item with method GET and URL path `['pets', ':petId']`. -/
def mergerItemX : Item :=
  .leaf "Get pet" (some ⟨some "GET", some (.uobj (some (.parr ["pets", ":petId"])))⟩) none []

end Merge

namespace Sanitizer

open OPS

/-
The whole of this namespace is modelled from the specification: the file
scripts/value-sanitizer.js is not part of the source tree we were given (only
its test suite is), so every definition here follows the spec's description
of the Value Sanitizer, with heuristic constants fixed so that the spec's §8
scenarios hold.
-/

/- A JSON value, as a strict tagged union (spec §9); numbers appearing in the
claims are integers.  `JArr`/`JObj` are inlined list types so that all
recursion over values is structural. -/
mutual
inductive JVal where
  | str (s : String)
  | num (n : Int)
  | bool (b : Bool)
  | null
  | arr (items : JArr)
  | obj (fields : JObj)
inductive JArr where
  | nil
  | cons (head : JVal) (tail : JArr)
inductive JObj where
  | nil
  | cons (key : String) (val : JVal) (tail : JObj)
end

deriving instance DecidableEq for JVal

/-- Modelled from the spec: the lorem-ipsum vocabulary the generator draws
placeholder text from (value-sanitizer.js is missing from src/). -/
def loremWords : List String :=
  ["lorem", "ipsum", "dolor", "sit", "amet", "consectetur", "adipiscing", "elit",
   "sed", "do", "eiusmod", "tempor", "incididunt", "ut", "labore", "et", "dolore",
   "magna", "aliqua", "enim", "minim", "veniam", "quis", "nostrud", "exercitation",
   "ullamco", "laboris", "nisi", "aliquip", "ex", "ea", "commodo", "consequat",
   "duis", "aute", "irure", "in", "reprehenderit", "voluptate", "velit", "esse",
   "cillum", "fugiat", "pariatur", "sint", "occaecat", "cupidatat", "non",
   "proident", "sunt", "culpa", "officia", "deserunt", "mollit", "anim", "id",
   "est", "laborum", "nulla"]

/-- Split a string into its space-separated words. -/
def wordsAux : List Char → List Char → List String
  | [], cur => [String.mk cur.reverse]
  | c :: rest, cur =>
      if c == ' ' then String.mk cur.reverse :: wordsAux rest []
      else wordsAux rest (c :: cur)

def wordsOf (s : String) : List String := wordsAux s.data []

/-- Modelled from the spec: a string is lorem-ipsum style text when one of its
words (case-insensitively) belongs to the lorem vocabulary. -/
def isLoremText (s : String) : Bool :=
  (wordsOf (toLowerStr s)).any (fun w => loremWords.contains w)

/-- Modelled from the spec: a randomly generated email has a high-entropy
local part (mixed-case alphanumerics) rather than a human-chosen word; the
model flags an address whose local part contains both an uppercase letter and
a digit. -/
def isRandomEmail (s : String) : Bool :=
  let localPart := s.data.takeWhile (fun c => c != '@')
  s.data.contains '@' && localPart.any Char.isUpper && localPart.any Char.isDigit

def digitVal (c : Char) : Nat := c.toNat - '0'.toNat

/-- Modelled from the spec: a generator date is an ISO timestamp with
sub-second precision whose year lies before the recent-history cutoff
(fixed at 2000, so 1959/1966/1987 are flagged and 2025 is not). -/
def isOldRandomDate (s : String) : Bool :=
  match s.data with
  | y1 :: y2 :: y3 :: y4 :: '-' :: rest =>
      y1.isDigit && y2.isDigit && y3.isDigit && y4.isDigit &&
      rest.contains 'T' && rest.contains '.' &&
      (match rest.getLast? with | some c => c == 'Z' | none => false) &&
      decide (digitVal y1 * 1000 + digitVal y2 * 100 + digitVal y3 * 10 + digitVal y4 < 2000)
  | _ => false

/-- Modelled from the spec: `isRandomValue` — a pure heuristic classifier of a
single scalar.  Strings are flagged for lorem text, random-email shape, old
generator dates, or the `urn:uuid:` prefix (a bare UUID is NOT flagged);
integers are flagged outside the reasonable magnitude band (above 1000000, or
below -1000); booleans and `null` are never flagged.  The numeric thresholds
are the configurable constants of spec §9, fixed to satisfy the §8 scenarios. -/
def isRandomValue : JVal → Bool
  | .str s => isLoremText s || isRandomEmail s || isOldRandomDate s || strStartsWith "urn:uuid:" s
  | .num n => decide (n > (1000000 : Int)) || decide (n < (-1000 : Int))
  | _ => false

/-- A schema field descriptor `{type, format?, example?, enum?, minimum?,
maximum?}` (spec §3); `example`/`enum` are Lean keywords, hence the field
names `exampleVal`/`enumVals`. -/
structure FieldSchema where
  type : Option String
  format : Option String
  exampleVal : Option JVal
  enumVals : Option (List JVal)
  minimum : Option Int
  maximum : Option Int

def emptySchema : FieldSchema := ⟨none, none, none, none, none, none⟩

/-- The `components.schemas` section of an OpenAPI document, already flattened
to named object types with their property descriptors. -/
structure OpenSpec where
  schemas : List (String × List (String × FieldSchema))

def lookupAssoc {α : Type} (l : List (String × α)) (k : String) : Option α :=
  (l.find? (fun kv => kv.1 == k)).map (fun kv => kv.2)

/-- Modelled from the spec: `buildSchemaMap` flattens the specification's
schema section into `{schemaName: {fieldName: descriptor}}` and returns an
empty mapping when the specification is absent or lacks schemas. -/
def buildSchemaMap (spec : Option OpenSpec) : List (String × List (String × FieldSchema)) :=
  match spec with
  | some s => s.schemas
  | none => []

/-- Modelled from the spec: `findFieldSchema` scans every schema's field
mapping and returns the first descriptor declared under the field name. -/
def findFieldSchema (fieldName : String)
    (schemaMap : List (String × List (String × FieldSchema))) : Option FieldSchema :=
  schemaMap.findSome? (fun sf => lookupAssoc sf.2 fieldName)

/-- Modelled from the spec: `FORMAT_DEFAULTS`, format token to canonical
exemplar value. -/
def FORMAT_DEFAULTS : List (String × JVal) :=
  [("uuid", .str "550e8400-e29b-41d4-a716-446655440000"),
   ("email", .str "user@example.com"),
   ("date-time", .str "2025-01-15T10:30:00.000Z"),
   ("date", .str "2025-01-15"),
   ("uri", .str "https://example.com")]

/-- Modelled from the spec: `FIELD_NAME_DEFAULTS`, lowercase field-name token
to canonical exemplar value, used case-insensitively, exact match first and
then by suffix. -/
def FIELD_NAME_DEFAULTS : List (String × JVal) :=
  [("name", .str "John Doe"),
   ("firstname", .str "John"),
   ("lastname", .str "Doe"),
   ("email", .str "user@example.com"),
   ("age", .num 25),
   ("city", .str "Springfield"),
   ("id", .str "550e8400-e29b-41d4-a716-446655440000"),
   ("status", .str "active"),
   ("phone", .str "555-0100")]

/-- The optional user value map `{fieldDefaults, endpointOverrides}`. -/
structure UserValueMap where
  fieldDefaults : List (String × JVal)
  endpointOverrides : List (String × List (String × JVal))

/-- Modelled from the spec: `resolveValue` — the strict priority chain, first
match wins: endpoint override, user field default, schema example, first enum
value, format default, field-name default (exact then suffix), type-based
fallback, else `null`. -/
def resolveValue (fieldName : String) (fieldSchema : FieldSchema)
    (userValueMap : Option UserValueMap) (endpointKey : Option String) : Option JVal :=
  let fromOverride : Option JVal := do
    let um ← userValueMap
    let k ← endpointKey
    let o ← lookupAssoc um.endpointOverrides k
    lookupAssoc o fieldName
  let fromDefault : Option JVal := do
    let um ← userValueMap
    lookupAssoc um.fieldDefaults fieldName
  let fromFormat : Option JVal := do
    let f ← fieldSchema.format
    lookupAssoc FORMAT_DEFAULTS f
  let fromFieldName : Option JVal :=
    let lower := toLowerStr fieldName
    match lookupAssoc FIELD_NAME_DEFAULTS lower with
    | some v => some v
    | none => FIELD_NAME_DEFAULTS.findSome?
        (fun kv => if strEndsWith kv.1 lower then some kv.2 else none)
  let fromType : Option JVal :=
    match fieldSchema.type with
    | some t =>
        if t == "integer" || t == "number" then
          some (.num (fieldSchema.minimum.getD (fieldSchema.maximum.getD 0)))
        else if t == "boolean" then some (.bool true)
        else none
    | none => none
  fromOverride <|> fromDefault <|> fieldSchema.exampleVal <|>
    (fieldSchema.enumVals >>= fun l => l.head?) <|> fromFormat <|> fromFieldName <|> fromType

/-- A bound path variable of a request URL. -/
structure SUrlVar where
  key : String
  value : JVal

/-- The sanitizer's view of a request: method, URL path segments, bound path
variables, and the request body when it was JSON-parseable (`none` stands for
an absent or non-JSON body, which is left untouched). -/
structure SRequest where
  method : Option String
  path : Option (List String)
  urlVars : List SUrlVar
  body : Option JVal

/-- A response example; `body` is `none` when absent or not JSON-parseable. -/
structure SResponse where
  body : Option JVal

/- The sanitizer's collection tree: folders and leaf request items. -/
mutual
inductive SItem where
  | folder (name : String) (children : SItems)
  | leaf (name : String) (request : Option SRequest) (responses : List SResponse)
inductive SItems where
  | nil
  | cons (head : SItem) (tail : SItems)
end

/-- A collection document; `item` is `none` for an empty object `{}`. -/
structure SColl where
  item : Option SItems

/-- Convert one path segment from colon form `:var` to brace form. -/
def convertSegment (s : String) : String :=
  match s.data with
  | ':' :: rest => String.mk ('\x7b' :: (rest ++ ['\x7d']))
  | _ => s

/-- Modelled from the spec: `buildEndpointKey` — method upper-cased, then ':'
and the path joined with '/' with a leading '/', each colon-prefixed
path-variable segment rewritten to brace form. -/
def buildEndpointKey (req : Option SRequest) : String :=
  match req with
  | some r =>
      toUpperStr (r.method.getD "GET") ++ ":/" ++
        joinSlash ((r.path.getD []).map convertSegment)
  | none => ""

/- Modelled from the spec: the recursive body walker.  Every scalar leaf is
classified with `isRandomValue`; authentic values are left unchanged; flagged
values are replaced by `resolveValue` under the owning field name (object keys
name their values; array elements inherit the surrounding field name), with
the original kept when resolution misses. -/
mutual
def sanitizeJVal (sm : List (String × List (String × FieldSchema))) (um : Option UserValueMap)
    (ek : Option String) (fieldName : String) : JVal → JVal
  | .obj o => .obj (sanitizeJObj sm um ek o)
  | .arr a => .arr (sanitizeJArr sm um ek fieldName a)
  | v =>
      if isRandomValue v then
        match resolveValue fieldName ((findFieldSchema fieldName sm).getD emptySchema) um ek with
        | some r => r
        | none => v
      else v
def sanitizeJArr (sm : List (String × List (String × FieldSchema))) (um : Option UserValueMap)
    (ek : Option String) (fieldName : String) : JArr → JArr
  | .nil => .nil
  | .cons h t => .cons (sanitizeJVal sm um ek fieldName h) (sanitizeJArr sm um ek fieldName t)
def sanitizeJObj (sm : List (String × List (String × FieldSchema))) (um : Option UserValueMap)
    (ek : Option String) : JObj → JObj
  | .nil => .nil
  | .cons k v t => .cons k (sanitizeJVal sm um ek k v) (sanitizeJObj sm um ek t)
end

/-- Modelled from the spec: sanitize one request — its JSON body and its
bound path-variable values (each under its own key as field name). -/
def sanitizeSRequest (sm : List (String × List (String × FieldSchema)))
    (um : Option UserValueMap) (ek : Option String) (r : SRequest) : SRequest :=
  { method := r.method
    path := r.path
    urlVars := r.urlVars.map (fun v => ⟨v.key, sanitizeJVal sm um ek v.key v.value⟩)
    body := r.body.map (sanitizeJVal sm um ek "") }

/- Modelled from the spec: traverse every folder/request node; for a request
leaf, compute its endpoint key (for override lookup) and sanitize its request
body, path variables and response example bodies. -/
mutual
def sanitizeSItem (sm : List (String × List (String × FieldSchema)))
    (um : Option UserValueMap) : SItem → SItem
  | .folder n ch => .folder n (sanitizeSItems sm um ch)
  | .leaf n req resps =>
      let ek := req.map (fun r => buildEndpointKey (some r))
      .leaf n (req.map (sanitizeSRequest sm um ek))
        (resps.map (fun resp => ⟨resp.body.map (sanitizeJVal sm um ek "")⟩))
def sanitizeSItems (sm : List (String × List (String × FieldSchema)))
    (um : Option UserValueMap) : SItems → SItems
  | .nil => .nil
  | .cons h t => .cons (sanitizeSItem sm um h) (sanitizeSItems sm um t)
end

/-- Modelled from the spec: `sanitizeCollection(collection, spec, userMap?)` —
a `null` or empty collection is returned unchanged (no-op, not an error);
otherwise the item tree is walked and sanitized. -/
def sanitizeCollection (collection : Option SColl) (spec : Option OpenSpec)
    (userMap : Option UserValueMap) : Option SColl :=
  match collection with
  | none => none
  | some c =>
      let sm := buildSchemaMap spec
      some ⟨c.item.map (sanitizeSItems sm userMap)⟩

/- Cleanliness: every scalar leaf of a value is classified authentic. -/
mutual
def cleanJVal : JVal → Bool
  | .obj o => cleanJObj o
  | .arr a => cleanJArr a
  | v => !(isRandomValue v)
def cleanJArr : JArr → Bool
  | .nil => true
  | .cons h t => cleanJVal h && cleanJArr t
def cleanJObj : JObj → Bool
  | .nil => true
  | .cons _ v t => cleanJVal v && cleanJObj t
end

def cleanOptJVal : Option JVal → Bool
  | none => true
  | some v => cleanJVal v

/-- A request is clean when its body and its path-variable values contain only
values classified as not random. -/
def cleanSRequest (r : SRequest) : Bool :=
  cleanOptJVal r.body && r.urlVars.all (fun v => cleanJVal v.value)

/- A collection tree is clean when all its request and response bodies and
path-variable values are clean. -/
mutual
def cleanSItem : SItem → Bool
  | .folder _ ch => cleanSItems ch
  | .leaf _ req resps =>
      (match req with | some r => cleanSRequest r | none => true) &&
      resps.all (fun resp => cleanOptJVal resp.body)
def cleanSItems : SItems → Bool
  | .nil => true
  | .cons h t => cleanSItem h && cleanSItems t
end

def cleanColl : Option SColl → Bool
  | none => true
  | some c => match c.item with | none => true | some its => cleanSItems its

/-- The sanitizer-side view of the same request: method GET, path
`['pets', ':petId']`. -/
def sanReqX : SRequest := ⟨some "GET", some ["pets", ":petId"], [], none⟩

/-- The user value map of the priority-chain scenario. -/
def umX : UserValueMap :=
  ⟨[("name", .str "Default")], [("POST:/pets", [("name", .str "Override")])]⟩

/-- A clean request body: `{name: "Buddy", age: 3}`. -/
def bodyCleanX : JVal := .obj (.cons "name" (.str "Buddy") (.cons "age" (.num 3) .nil))

/-- A collection whose only body is clean. -/
def collCleanX : Option SColl :=
  some ⟨some (.cons (.leaf "Create Pet" (some ⟨some "POST", some ["pets"], [], some bodyCleanX⟩) [])
    .nil)⟩

def specX : Option OpenSpec :=
  some ⟨[("Pet", [("name", ⟨some "string", none, some (.str "Buddy"), none, none, none⟩)])]⟩

end Sanitizer

namespace Merge

lemma mergeOne_find?_self (pe : Event) (t : String) (hpt : pe.listen = t) (acc : List Event) :
    findByListen t (mergeOne pe acc) =
      (match findByListen t acc with
       | none => some pe
       | some ce => if hasNonEmptyScript ce then some ce else some pe) := by
  subst hpt
  induction acc with
  | nil => simp [mergeOne, findByListen, List.find?]
  | cons ce rest ih =>
      cases hce : ce.listen == pe.listen with
      | true =>
          cases hne : hasNonEmptyScript ce with
          | true => simp [mergeOne, hce, hne, findByListen, List.find?]
          | false => simp [mergeOne, hce, hne, findByListen, List.find?]
      | false =>
          simp only [mergeOne, hce, Bool.false_eq_true, if_false, findByListen, List.find?] at *
          simpa [hce] using ih

lemma mergeOne_find?_ne (pe : Event) (t : String) (hpt : (pe.listen == t) = false)
    (acc : List Event) : findByListen t (mergeOne pe acc) = findByListen t acc := by
  induction acc with
  | nil => simp [mergeOne, findByListen, List.find?, hpt]
  | cons ce rest ih =>
      cases hce : ce.listen == pe.listen with
      | true =>
          have h1 : ce.listen = pe.listen := by simpa using hce
          have hce' : (ce.listen == t) = false := by rw [h1]; exact hpt
          cases hne : hasNonEmptyScript ce with
          | true => simp [mergeOne, hce, hne]
          | false => simp [mergeOne, hce, hne, findByListen, List.find?, hce', hpt]
      | false =>
          simp only [mergeOne, hce, Bool.false_eq_true, if_false, findByListen, List.find?] at *
          cases hct : ce.listen == t with
          | true => simp [hct]
          | false => simpa [hct] using ih

lemma mergeOne_mem {e pe : Event} : ∀ {acc : List Event}, e ∈ mergeOne pe acc → e ∈ acc ∨ e = pe
  | [], h => by simp [mergeOne] at h; exact Or.inr h
  | ce :: rest, h => by
      by_cases hce : (ce.listen == pe.listen) = true
      · by_cases hne : hasNonEmptyScript ce = true
        · simp [mergeOne, hce, hne] at h
          rcases h with h | h
          · exact Or.inl (by simp [h])
          · exact Or.inl (by simp [h])
        · simp [mergeOne, hce, hne] at h
          rcases h with h | h
          · exact Or.inr h
          · exact Or.inl (by simp [h])
      · simp only [mergeOne, hce, Bool.false_eq_true, if_false] at h
        rcases List.mem_cons.mp h with h | h
        · exact Or.inl (by simp [h])
        · rcases mergeOne_mem h with h2 | h2
          · exact Or.inl (by simp [h2])
          · exact Or.inr h2

lemma mergeEvents_find? (t : String) :
    ∀ (prev acc : List Event),
      findByListen t (mergeEvents acc prev) =
        (match prev.find? (fun e => e.listen == t && hasNonEmptyScript e), findByListen t acc with
         | some pe, none => some pe
         | some pe, some ce => if hasNonEmptyScript ce then some ce else some pe
         | none, c => c)
  | [], acc => by cases h : findByListen t acc <;> simp [mergeEvents, List.find?, h]
  | pe :: rest, acc => by
      cases hne : hasNonEmptyScript pe with
      | false =>
          have ih := mergeEvents_find? t rest acc
          simp only [mergeEvents, hne, Bool.false_eq_true, if_false]
          rw [ih]
          simp [List.find?, hne]
      | true =>
          cases hpt : pe.listen == t with
          | false =>
              have ih := mergeEvents_find? t rest (mergeOne pe acc)
              simp only [mergeEvents, hne, if_true]
              rw [ih, mergeOne_find?_ne pe t hpt acc]
              simp [List.find?, hpt]
          | true =>
              have hpt' : pe.listen = t := by simpa using hpt
              have ih := mergeEvents_find? t rest (mergeOne pe acc)
              simp only [mergeEvents, hne, if_true]
              rw [ih, mergeOne_find?_self pe t hpt' acc]
              have hfind : ((pe :: rest).find? (fun e => e.listen == t && hasNonEmptyScript e))
                  = some pe := by
                simp [List.find?, hpt, hne]
              rw [hfind]
              cases hc : findByListen t acc with
              | none =>
                  cases hr : rest.find? (fun e => e.listen == t && hasNonEmptyScript e) with
                  | none => simp [hne]
                  | some pe2 => simp [hne]
              | some ce =>
                  cases hnec : hasNonEmptyScript ce with
                  | true =>
                      simp only [hnec, if_true]
                      cases hr : rest.find? (fun e => e.listen == t && hasNonEmptyScript e) with
                      | none => simp
                      | some pe2 => simp [hnec]
                  | false =>
                      simp only [hnec, Bool.false_eq_true, if_false]
                      cases hr : rest.find? (fun e => e.listen == t && hasNonEmptyScript e) with
                      | none => simp [hne]
                      | some pe2 => simp [hne]

lemma mergeEvents_mem {e : Event} :
    ∀ (prev acc : List Event),
      e ∈ mergeEvents acc prev → e ∈ acc ∨ (e ∈ prev ∧ hasNonEmptyScript e)
  | [], acc, h => Or.inl (by simpa [mergeEvents] using h)
  | pe :: rest, acc, h => by
      cases hne : hasNonEmptyScript pe with
      | false =>
          simp only [mergeEvents, hne, Bool.false_eq_true, if_false] at h
          rcases mergeEvents_mem rest acc h with h2 | h2
          · exact Or.inl h2
          · exact Or.inr ⟨List.mem_cons_of_mem _ h2.1, h2.2⟩
      | true =>
          simp only [mergeEvents, hne, if_true] at h
          rcases mergeEvents_mem rest (mergeOne pe acc) h with h2 | h2
          · rcases mergeOne_mem h2 with h3 | h3
            · exact Or.inl h3
            · exact Or.inr ⟨by simp [h3], by rw [h3]; exact hne⟩
          · exact Or.inr ⟨List.mem_cons_of_mem _ h2.1, h2.2⟩

end Merge

namespace Merge

/-- Claim C2: when a candidate request matches a previous request, the merged
request is a structural copy of the candidate (name, request definition and
payload unchanged); its event list only ever contains candidate events or
previous events with non-empty scripts (so previous events with empty scripts
are never copied over); and for every listen type, the retained event is: the
previous non-empty event when the candidate has none of that type; the
previous non-empty event when the candidate's one has an empty script; and the
candidate's own event when its script is non-empty (the previous never
overwrites a populated candidate script). -/
theorem mergeRequest_event_preservation
    (n : String) (r : Option RequestDef) (candE : Option (List Event)) (resp : List String)
    (pn : String) (pr : Option RequestDef) (prevE : Option (List Event)) (presp : List String) :
    itemName (mergeRequest (.leaf n r candE resp) (.leaf pn pr prevE presp)) = n ∧
    itemRequest (mergeRequest (.leaf n r candE resp) (.leaf pn pr prevE presp)) = r ∧
    itemResponse (mergeRequest (.leaf n r candE resp) (.leaf pn pr prevE presp)) = resp ∧
    (∀ e ∈ (itemEvent (mergeRequest (.leaf n r candE resp) (.leaf pn pr prevE presp))).getD [],
        e ∈ candE.getD [] ∨ (e ∈ prevE.getD [] ∧ hasNonEmptyScript e = true)) ∧
    (∀ t, findByListen t
        ((itemEvent (mergeRequest (.leaf n r candE resp) (.leaf pn pr prevE presp))).getD []) =
      (match (prevE.getD []).find? (fun e => e.listen == t && hasNonEmptyScript e),
             findByListen t (candE.getD []) with
       | some pe, none => some pe
       | some pe, some ce => if hasNonEmptyScript ce then some ce else some pe
       | none, c => c)) := by
  cases prevE with
  | none =>
      refine ⟨rfl, rfl, rfl, ?_, ?_⟩
      · intro e he
        exact Or.inl (by simpa [mergeRequest, itemEvent] using he)
      · intro t
        simp [mergeRequest, itemEvent, List.find?]
  | some pes =>
      cases hemp : pes.isEmpty with
      | true =>
          have hnil : pes = [] := List.isEmpty_iff.mp hemp
          subst hnil
          refine ⟨rfl, rfl, rfl, ?_, ?_⟩
          · intro e he
            exact Or.inl (by simpa [mergeRequest, itemEvent] using he)
          · intro t
            simp [mergeRequest, itemEvent, List.find?]
      | false =>
          have hm : mergeRequest (.leaf n r candE resp) (.leaf pn pr (some pes) presp) =
              .leaf n r (some (mergeEvents (candE.getD []) pes)) resp := by
            simp [mergeRequest, itemEvent, hemp]
          refine ⟨by simp [hm, itemName], by simp [hm, itemRequest], by simp [hm, itemResponse],
            ?_, ?_⟩
          · intro e he
            simp only [hm, itemEvent, Option.getD_some] at he
            rcases mergeEvents_mem pes (candE.getD []) he with h2 | h2
            · exact Or.inl h2
            · exact Or.inr h2
          · intro t
            simp only [hm, itemEvent, Option.getD_some]
            exact mergeEvents_find? t pes (candE.getD [])

/-- Witness for C2: a candidate with an empty-script test event merged with a
previous request carrying a populated test event retains the previous event. -/
theorem mergeRequest_event_preservation_w :
    findByListen "test"
      ((itemEvent (mergeRequest (.leaf "Get pet" none (some [candEmptyTestEv]) [])
        (.leaf "Get pet" none (some [prevPreEv, prevTestEv]) []))).getD []) = some prevTestEv :=
  (mergeRequest_event_preservation "Get pet" none (some [candEmptyTestEv]) [] "Get pet" none
    (some [prevPreEv, prevTestEv]) []).2.2.2.2 "test"

lemma collEventStep_find_other (t tstep : String) (h : tstep ≠ t) (tog : Bool)
    (prevE cur : Option (List Event)) :
    findByListen t ((collEventStep tstep tog prevE cur).getD []) =
      findByListen t (cur.getD []) := by
  cases tog with
  | false => simp [collEventStep]
  | true =>
      cases prevE with
      | none => simp [collEventStep]
      | some pes =>
          cases hfind : pes.find? (fun e => e.listen == tstep) with
          | none => simp [collEventStep, hfind]
          | some pe =>
              have hpe : pe.listen = tstep := by simpa using List.find?_some hfind
              have hpet : (pe.listen == t) = false := by
                rw [hpe]
                exact beq_eq_false_iff_ne.mpr h
              cases hbase : (cur.getD []).find? (fun e => e.listen == tstep) with
              | none =>
                  simp only [collEventStep, hfind, hbase, if_true, Option.getD_some]
                  simp [findByListen, List.find?_append, List.find?, hpet]
              | some ce => simp [collEventStep, hfind, hbase, findByListen]

lemma collEventStep_find_self_some (t : String) (prevE cur : Option (List Event)) (ce : Event)
    (h : findByListen t (cur.getD []) = some ce) :
    findByListen t ((collEventStep t true prevE cur).getD []) = some ce := by
  cases prevE with
  | none => simpa [collEventStep] using h
  | some pes =>
      cases hfind : pes.find? (fun e => e.listen == t) with
      | none => simpa [collEventStep, hfind] using h
      | some pe =>
          have h' : (cur.getD []).find? (fun e => e.listen == t) = some ce := h
          simp only [collEventStep, hfind, h', if_true, Option.getD_some]
          exact h

lemma collEventStep_find_self_none (t : String) (pes : List Event) (cur : Option (List Event))
    (pe : Event) (hc : findByListen t (cur.getD []) = none)
    (hp : pes.find? (fun e => e.listen == t) = some pe) :
    findByListen t ((collEventStep t true (some pes) cur).getD []) = some pe := by
  have hc' : (cur.getD []).find? (fun e => e.listen == t) = none := hc
  have hpe0 := List.find?_some hp
  have hpe : (pe.listen == t) = true := by simpa using hpe0
  simp only [collEventStep, hp, hc', if_true, Option.getD_some]
  simp [findByListen, List.find?_append, hc', List.find?, hpe]

/-- Claim C10: at the collection root, with both preserve toggles on, a
candidate collection-level event of a given listen type (prerequest or test)
is always kept — even when its script is empty and the previous collection has
a populated event of the same type; and when the candidate has no event of
that type, the previous collection's event of that type is appended — even
when its own script is empty. -/
theorem merge_root_event_append_only (candE : Option (List Event)) (pes : List Event)
    (t : String) (ht : t = "prerequest" ∨ t = "test") :
    (∀ ce, findByListen t (candE.getD []) = some ce →
        findByListen t ((mergeTopEvents true true (some pes) candE).getD []) = some ce) ∧
    (findByListen t (candE.getD []) = none →
      ∀ pe, pes.find? (fun e => e.listen == t) = some pe →
        findByListen t ((mergeTopEvents true true (some pes) candE).getD []) = some pe) := by
  unfold mergeTopEvents
  rcases ht with ht | ht
  · subst ht
    constructor
    · intro ce hce
      rw [collEventStep_find_other "prerequest" "test" (by decide) true (some pes) _]
      exact collEventStep_find_self_some "prerequest" (some pes) candE ce hce
    · intro hnone pe hpe
      rw [collEventStep_find_other "prerequest" "test" (by decide) true (some pes) _]
      exact collEventStep_find_self_none "prerequest" pes candE pe hnone hpe
  · subst ht
    constructor
    · intro ce hce
      refine collEventStep_find_self_some "test" (some pes) _ ce ?_
      rw [collEventStep_find_other "test" "prerequest" (by decide) true (some pes) candE]
      exact hce
    · intro hnone pe hpe
      refine collEventStep_find_self_none "test" pes _ pe ?_ hpe
      rw [collEventStep_find_other "test" "prerequest" (by decide) true (some pes) candE]
      exact hnone

/-- Witness for C10: the candidate's empty prerequest event survives a
previous populated one, and the previous empty test event is appended. -/
theorem merge_root_event_append_only_w :
    findByListen "prerequest"
      ((mergeTopEvents true true (some [prevPreFullEv, prevTestEmptyEv])
        (some [candPreEmptyEv])).getD []) = some candPreEmptyEv ∧
    findByListen "test"
      ((mergeTopEvents true true (some [prevPreFullEv, prevTestEmptyEv])
        (some [candPreEmptyEv])).getD []) = some prevTestEmptyEv :=
  ⟨(merge_root_event_append_only (some [candPreEmptyEv]) [prevPreFullEv, prevTestEmptyEv]
      "prerequest" (Or.inl rfl)).1 candPreEmptyEv rfl,
   (merge_root_event_append_only (some [candPreEmptyEv]) [prevPreFullEv, prevTestEmptyEv]
      "test" (Or.inr rfl)).2 rfl prevTestEmptyEv rfl⟩

lemma collEventStep_some_extends (t : String) (tog : Bool) (prevE : Option (List Event))
    (b : List Event) :
    ∃ s, collEventStep t tog prevE (some b) = some (b ++ s) := by
  cases tog with
  | false => exact ⟨[], by simp [collEventStep]⟩
  | true =>
      cases prevE with
      | none => exact ⟨[], by simp [collEventStep]⟩
      | some pes =>
          cases hfind : pes.find? (fun e => e.listen == t) with
          | none => exact ⟨[], by simp [collEventStep, hfind]⟩
          | some pe =>
              cases hbase : b.find? (fun e => e.listen == t) with
              | none => exact ⟨[pe], by simp [collEventStep, hfind, hbase]⟩
              | some ce => exact ⟨[], by simp [collEventStep, hfind, hbase]⟩

lemma mergeTopEvents_some_extends (pp pt : Bool) (prevE : Option (List Event)) (b : List Event) :
    ∃ s, mergeTopEvents pp pt prevE (some b) = some (b ++ s) := by
  obtain ⟨s1, h1⟩ := collEventStep_some_extends "prerequest" pp prevE b
  obtain ⟨s2, h2⟩ := collEventStep_some_extends "test" pt prevE (b ++ s1)
  exact ⟨s1 ++ s2, by rw [mergeTopEvents, h1, h2, List.append_assoc]⟩

lemma mergeTopVars_some_extends (pv : Bool) (prevV : Option (List CollVar)) (b : List CollVar) :
    ∃ s, mergeTopVars pv prevV (some b) = some (b ++ s) := by
  cases pv with
  | false => exact ⟨[], by simp [mergeTopVars]⟩
  | true =>
      cases prevV with
      | none => exact ⟨[], by simp [mergeTopVars]⟩
      | some pvs =>
          exact ⟨pvs.filter (fun v => !((b.map (fun v => v.key)).contains v.key)),
            by simp [mergeTopVars]⟩

/-- Claim C3 counterexample: merging a candidate whose variable array holds
`a` with a previous collection holding variable `b` leaves the candidate's
aliased variable array mutated to `[a, b]`, so the candidate collection is
not left unmodified. -/
theorem merge_mutates_candidate_cex : ¬ ((mergeTop true true true candX prevX).2 = candX) :=
  fun h => absurd (congrArg Collection.vars h) (by decide)

/-- Claim C3 (amended): merge never mutates the candidate's item tree or id,
and never removes or reorders entries of its top-level event and variable
arrays; but those two arrays are aliased into the merged collection and can be
mutated in place by appending collection-level events/variables taken from the
previous collection (arrays absent from the candidate stay absent). -/
theorem merge_frame_on_candidate (pp pt pv : Bool) (cand prev : Collection) :
    (mergeTop pp pt pv cand prev).2.item = cand.item ∧
    (mergeTop pp pt pv cand prev).2.postmanId = cand.postmanId ∧
    (mergeTop pp pt pv cand prev).2.event.isSome = cand.event.isSome ∧
    (∃ s, (mergeTop pp pt pv cand prev).2.event.getD [] = cand.event.getD [] ++ s) ∧
    (mergeTop pp pt pv cand prev).2.vars.isSome = cand.vars.isSome ∧
    (∃ s, (mergeTop pp pt pv cand prev).2.vars.getD [] = cand.vars.getD [] ++ s) := by
  refine ⟨rfl, rfl, ?_, ?_, ?_, ?_⟩
  · cases hce : cand.event with
    | none => simp [mergeTop, hce]
    | some b =>
        obtain ⟨s, hs⟩ := mergeTopEvents_some_extends pp pt prev.event b
        simp [mergeTop, hce, hs]
  · cases hce : cand.event with
    | none => exact ⟨[], by simp [mergeTop, hce]⟩
    | some b =>
        obtain ⟨s, hs⟩ := mergeTopEvents_some_extends pp pt prev.event b
        exact ⟨s, by simp [mergeTop, hce, hs]⟩
  · cases hcv : cand.vars with
    | none => simp [mergeTop, hcv]
    | some b =>
        obtain ⟨s, hs⟩ := mergeTopVars_some_extends pv prev.vars b
        simp [mergeTop, hcv, hs]
  · cases hcv : cand.vars with
    | none => exact ⟨[], by simp [mergeTop, hcv]⟩
    | some b =>
        obtain ⟨s, hs⟩ := mergeTopVars_some_extends pv prev.vars b
        exact ⟨s, by simp [mergeTop, hcv, hs]⟩

lemma contains_eq_true_iff (l : List String) (x : String) : l.contains x = true ↔ x ∈ l :=
  List.elem_iff

lemma contains_eq_false_iff (l : List String) (x : String) : l.contains x = false ↔ x ∉ l := by
  constructor
  · intro h hmem
    rw [(contains_eq_true_iff l x).mpr hmem] at h
    cases h
  · intro h
    cases hc : l.contains x with
    | false => rfl
    | true => exact absurd ((contains_eq_true_iff l x).mp hc) h

lemma dedupAux_mem (x : String) : ∀ (l seen : List String),
    (x ∈ dedupAux l seen ↔ x ∈ l ∧ x ∉ seen)
  | [], seen => by simp [dedupAux]
  | y :: rest, seen => by
      cases hsy : seen.contains y with
      | true =>
          have hy : y ∈ seen := (contains_eq_true_iff seen y).mp hsy
          rw [dedupAux, hsy]
          simp only [if_true]
          rw [dedupAux_mem x rest seen]
          constructor
          · rintro ⟨h1, h2⟩
            exact ⟨List.mem_cons_of_mem _ h1, h2⟩
          · rintro ⟨h1, h2⟩
            rcases List.mem_cons.mp h1 with h | h
            · exact absurd (h ▸ hy) h2
            · exact ⟨h, h2⟩
      | false =>
          have hy : y ∉ seen := (contains_eq_false_iff seen y).mp hsy
          rw [dedupAux, hsy]
          simp only [Bool.false_eq_true, if_false]
          by_cases hxy : x = y
          · subst hxy
            simp [hy]
          · constructor
            · intro h
              rcases List.mem_cons.mp h with h | h
              · exact absurd h hxy
              · have := (dedupAux_mem x rest (y :: seen)).mp h
                refine ⟨List.mem_cons_of_mem _ this.1,
                  fun hmem => this.2 (List.mem_cons_of_mem _ hmem)⟩
            · rintro ⟨h1, h2⟩
              rcases List.mem_cons.mp h1 with h | h
              · exact absurd h hxy
              · refine List.mem_cons_of_mem _ ((dedupAux_mem x rest (y :: seen)).mpr ⟨h, ?_⟩)
                intro hmem
                rcases List.mem_cons.mp hmem with h3 | h3
                · exact hxy h3
                · exact h2 h3

lemma dedupFirst_mem (x : String) (l : List String) : x ∈ dedupFirst l ↔ x ∈ l := by
  rw [dedupFirst, dedupAux_mem]
  simp

/-- Claim C7: the diff is computed over leaf display-path strings; `added` is
exactly the paths in the merged tree and not the previous one, `removed` the
paths in the previous tree and not the merged one, `preserved` the paths in
both; the three sets are pairwise disjoint; for previous endpoints `{A, B}`
and merged `{B, C}` the result is `added = [C]`, `removed = [A]`,
`preserved = [B]`; and the display path of a request inside a folder is the
folder names joined with '/' ending in the request's own name. -/
theorem calculateDiff_sets :
    (∀ (prevC merC : Collection) (x : String),
      (x ∈ (calculateDiff prevC merC).added ↔
        x ∈ collectEndpoints merC.item "" ∧ x ∉ collectEndpoints prevC.item "") ∧
      (x ∈ (calculateDiff prevC merC).removed ↔
        x ∈ collectEndpoints prevC.item "" ∧ x ∉ collectEndpoints merC.item "") ∧
      (x ∈ (calculateDiff prevC merC).preserved ↔
        x ∈ collectEndpoints merC.item "" ∧ x ∈ collectEndpoints prevC.item "") ∧
      ¬(x ∈ (calculateDiff prevC merC).added ∧ x ∈ (calculateDiff prevC merC).removed) ∧
      ¬(x ∈ (calculateDiff prevC merC).added ∧ x ∈ (calculateDiff prevC merC).preserved) ∧
      ¬(x ∈ (calculateDiff prevC merC).removed ∧ x ∈ (calculateDiff prevC merC).preserved)) ∧
    calculateDiff prevColl merColl = ⟨["C"], ["A"], ["B"]⟩ ∧
    collectEndpoints (.cons (.folder "Pets" (.cons (.leaf "List" none none []) .nil)) .nil) ""
      = ["Pets/List"] := by
  refine ⟨?_, by decide, by decide⟩
  intro prevC merC x
  have hadd : x ∈ (calculateDiff prevC merC).added ↔
      x ∈ collectEndpoints merC.item "" ∧ x ∉ collectEndpoints prevC.item "" := by
    simp only [calculateDiff, List.mem_filter, Bool.not_eq_true']
    rw [contains_eq_false_iff, dedupFirst_mem, dedupFirst_mem]
  have hrem : x ∈ (calculateDiff prevC merC).removed ↔
      x ∈ collectEndpoints prevC.item "" ∧ x ∉ collectEndpoints merC.item "" := by
    simp only [calculateDiff, List.mem_filter, Bool.not_eq_true']
    rw [contains_eq_false_iff, dedupFirst_mem, dedupFirst_mem]
  have hpres : x ∈ (calculateDiff prevC merC).preserved ↔
      x ∈ collectEndpoints merC.item "" ∧ x ∈ collectEndpoints prevC.item "" := by
    simp only [calculateDiff, List.mem_filter]
    rw [contains_eq_true_iff, dedupFirst_mem, dedupFirst_mem]
  refine ⟨hadd, hrem, hpres, ?_, ?_, ?_⟩
  · rintro ⟨h1, h2⟩
    exact (hadd.mp h1).2 (hrem.mp h2).1
  · rintro ⟨h1, h2⟩
    exact (hadd.mp h1).2 (hpres.mp h2).2
  · rintro ⟨h1, h2⟩
    exact (hrem.mp h1).2 (hpres.mp h2).1

/-- Witness for C7: the added-set characterization at the concrete example. -/
theorem calculateDiff_sets_w :
    "C" ∈ (calculateDiff prevColl merColl).added ↔
      "C" ∈ collectEndpoints merColl.item "" ∧ "C" ∉ collectEndpoints prevColl.item "" :=
  (calculateDiff_sets.1 prevColl merColl "C").1

/-- Claim C8: merging with a missing previous collection returns the candidate
collection verbatim, for any toggle configuration. -/
theorem merge_missing_previous (pp pt pv : Bool) (cand : Collection) :
    mergeRun pp pt pv cand none = cand := rfl

end Merge

namespace Sanitizer

mutual
theorem sanitizeJVal_clean (sm : List (String × List (String × FieldSchema)))
    (um : Option UserValueMap) (ek : Option String) :
    ∀ (fn : String) (v : JVal), cleanJVal v = true → sanitizeJVal sm um ek fn v = v
  | fn, .str s, h => by
      have h' : isRandomValue (.str s) = false := by simpa [cleanJVal] using h
      simp [sanitizeJVal, h']
  | fn, .num n, h => by
      have h' : isRandomValue (.num n) = false := by simpa [cleanJVal] using h
      simp [sanitizeJVal, h']
  | _, .bool b, _ => by simp [sanitizeJVal, isRandomValue]
  | _, .null, _ => by simp [sanitizeJVal, isRandomValue]
  | fn, .arr a, h => by
      have ha := sanitizeJArr_clean sm um ek fn a (by simpa [cleanJVal] using h)
      simp [sanitizeJVal, ha]
  | fn, .obj o, h => by
      have ho := sanitizeJObj_clean sm um ek o (by simpa [cleanJVal] using h)
      simp [sanitizeJVal, ho]
theorem sanitizeJArr_clean (sm : List (String × List (String × FieldSchema)))
    (um : Option UserValueMap) (ek : Option String) :
    ∀ (fn : String) (a : JArr), cleanJArr a = true → sanitizeJArr sm um ek fn a = a
  | _, .nil, _ => rfl
  | fn, .cons hd tl, h => by
      have h1 : cleanJVal hd = true ∧ cleanJArr tl = true := by
        simpa [cleanJArr, Bool.and_eq_true] using h
      simp [sanitizeJArr, sanitizeJVal_clean sm um ek fn hd h1.1,
        sanitizeJArr_clean sm um ek fn tl h1.2]
theorem sanitizeJObj_clean (sm : List (String × List (String × FieldSchema)))
    (um : Option UserValueMap) (ek : Option String) :
    ∀ (o : JObj), cleanJObj o = true → sanitizeJObj sm um ek o = o
  | .nil, _ => rfl
  | .cons k v tl, h => by
      have h1 : cleanJVal v = true ∧ cleanJObj tl = true := by
        simpa [cleanJObj, Bool.and_eq_true] using h
      simp [sanitizeJObj, sanitizeJVal_clean sm um ek k v h1.1,
        sanitizeJObj_clean sm um ek tl h1.2]
end

lemma sanitizeUrlVars_clean (sm : List (String × List (String × FieldSchema)))
    (um : Option UserValueMap) (ek : Option String) :
    ∀ (uv : List SUrlVar), uv.all (fun v => cleanJVal v.value) = true →
      uv.map (fun v => (⟨v.key, sanitizeJVal sm um ek v.key v.value⟩ : SUrlVar)) = uv
  | [], _ => rfl
  | v :: rest, h => by
      have h1 : cleanJVal v.value = true ∧ rest.all (fun v => cleanJVal v.value) = true := by
        simpa [List.all_cons, Bool.and_eq_true] using h
      cases v with
      | mk k val =>
          simp only [List.map_cons]
          rw [sanitizeJVal_clean sm um ek k val h1.1, sanitizeUrlVars_clean sm um ek rest h1.2]

lemma sanitizeResponses_clean (sm : List (String × List (String × FieldSchema)))
    (um : Option UserValueMap) (ek : Option String) :
    ∀ (resps : List SResponse), resps.all (fun resp => cleanOptJVal resp.body) = true →
      resps.map (fun resp => (⟨resp.body.map (sanitizeJVal sm um ek "")⟩ : SResponse)) = resps
  | [], _ => rfl
  | resp :: rest, h => by
      have h1 : cleanOptJVal resp.body = true ∧
          rest.all (fun resp => cleanOptJVal resp.body) = true := by
        simpa [List.all_cons, Bool.and_eq_true] using h
      cases resp with
      | mk b =>
          simp only [List.map_cons]
          rw [sanitizeResponses_clean sm um ek rest h1.2]
          cases b with
          | none => rfl
          | some v =>
              have : cleanJVal v = true := by simpa [cleanOptJVal] using h1.1
              simp [sanitizeJVal_clean sm um ek "" v this]

lemma sanitizeSRequest_clean (sm : List (String × List (String × FieldSchema)))
    (um : Option UserValueMap) (ek : Option String) (r : SRequest)
    (h : cleanSRequest r = true) : sanitizeSRequest sm um ek r = r := by
  have h1 : cleanOptJVal r.body = true ∧ r.urlVars.all (fun v => cleanJVal v.value) = true := by
    simpa [cleanSRequest, Bool.and_eq_true] using h
  cases r with
  | mk m p uv b =>
      simp only [sanitizeSRequest]
      congr 1
      · exact sanitizeUrlVars_clean sm um ek uv h1.2
      · cases b with
        | none => rfl
        | some v =>
            have : cleanJVal v = true := by simpa [cleanOptJVal] using h1.1
            simp [sanitizeJVal_clean sm um ek "" v this]

mutual
theorem sanitizeSItem_clean (sm : List (String × List (String × FieldSchema)))
    (um : Option UserValueMap) :
    ∀ (it : SItem), cleanSItem it = true → sanitizeSItem sm um it = it
  | .folder n ch, h => by
      have := sanitizeSItems_clean sm um ch (by simpa [cleanSItem] using h)
      simp [sanitizeSItem, this]
  | .leaf n req resps, h => by
      cases req with
      | none =>
          simp only [cleanSItem, Bool.true_and] at h
          simp [sanitizeSItem, sanitizeResponses_clean sm um none resps h]
      | some r =>
          simp only [cleanSItem] at h
          rw [Bool.and_eq_true] at h
          simp [sanitizeSItem, sanitizeSRequest_clean sm um (some (buildEndpointKey (some r))) r h.1,
            sanitizeResponses_clean sm um (some (buildEndpointKey (some r))) resps h.2]
theorem sanitizeSItems_clean (sm : List (String × List (String × FieldSchema)))
    (um : Option UserValueMap) :
    ∀ (its : SItems), cleanSItems its = true → sanitizeSItems sm um its = its
  | .nil, _ => rfl
  | .cons hd tl, h => by
      have h1 : cleanSItem hd = true ∧ cleanSItems tl = true := by
        simpa [cleanSItems, Bool.and_eq_true] using h
      simp [sanitizeSItems, sanitizeSItem_clean sm um hd h1.1, sanitizeSItems_clean sm um tl h1.2]
end

/-- Claim C4: sanitization is the identity on clean data — when every request
body, response body and path-variable value of a collection is classified as
not random by `isRandomValue`, `sanitizeCollection` returns the collection
unchanged, and re-running it any number of times yields identical output. -/
theorem sanitize_idempotent_on_clean (coll : Option SColl) (spec : Option OpenSpec)
    (um : Option UserValueMap) (h : cleanColl coll = true) :
    sanitizeCollection coll spec um = coll ∧
    ∀ k : Nat, (fun c => sanitizeCollection c spec um)^[k] coll = coll := by
  have h1 : sanitizeCollection coll spec um = coll := by
    cases coll with
    | none => rfl
    | some c =>
        cases c with
        | mk oits =>
            cases oits with
            | none => rfl
            | some its =>
                have hc : cleanSItems its = true := by simpa [cleanColl] using h
                simp [sanitizeCollection, sanitizeSItems_clean _ um its hc]
  exact ⟨h1, fun k => Function.iterate_fixed h1 k⟩

/-- Witness for C4: the collection whose only body is
`{name: "Buddy", age: 3}` is clean and sanitizes to itself. -/
theorem sanitize_idempotent_on_clean_w :
    cleanColl collCleanX = true ∧ sanitizeCollection collCleanX specX none = collCleanX :=
  ⟨by decide, (sanitize_idempotent_on_clean collCleanX specX none (by decide)).1⟩

end Sanitizer

namespace Sanitizer

/-- Claim C5: `resolveValue` follows the strict priority chain — an endpoint
override wins over everything, a user field default wins over every built-in
heuristic (schema example, enum, format, field-name, type fallback); with
`fieldDefaults = {name: Default}` and
`endpointOverrides = {POST:/pets: {name: Override}}`, resolving `name` with
endpoint key `POST:/pets` yields `Override`, and with any other endpoint key
yields `Default`. -/
theorem resolveValue_priority :
    (∀ (fn : String) (sch : FieldSchema) (um : UserValueMap) (k : String)
        (ov : List (String × JVal)) (v : JVal),
      lookupAssoc um.endpointOverrides k = some ov → lookupAssoc ov fn = some v →
      resolveValue fn sch (some um) (some k) = some v) ∧
    (∀ (fn : String) (sch : FieldSchema) (um : UserValueMap) (v : JVal),
      lookupAssoc um.fieldDefaults fn = some v →
      resolveValue fn sch (some um) none = some v) ∧
    resolveValue "name" emptySchema (some umX) (some "POST:/pets") = some (.str "Override") ∧
    (∀ k : String, k ≠ "POST:/pets" →
      resolveValue "name" emptySchema (some umX) (some k) = some (.str "Default")) := by
  refine ⟨?_, ?_, by decide, ?_⟩
  · intro fn sch um k ov v hov hv
    simp [resolveValue, hov, hv]
  · intro fn sch um v hv
    simp [resolveValue, hv]
  · intro k hk
    have hne : ("POST:/pets" == k) = false := beq_eq_false_iff_ne.mpr (Ne.symm hk)
    simp [resolveValue, lookupAssoc, List.find?, hne]

/-- Witness for C5: resolving `name` for the endpoint `GET:/users` (not the
overridden one) yields the field default. -/
theorem resolveValue_priority_w :
    resolveValue "name" emptySchema (some umX) (some "GET:/users") = some (.str "Default") :=
  resolveValue_priority.2.2.2 "GET:/users" (by decide)

/-- Claim C6: the classifier boundary — `urn:uuid:` strings are flagged, bare
UUIDs are not; the integers 78171233 and -50000000 are flagged, 25 and 100 are
not; booleans are never flagged. -/
theorem isRandomValue_boundary :
    isRandomValue (.str "urn:uuid:36a23258-2561-a45b-0feb-223506c7ee66") = true ∧
    isRandomValue (.str "550e8400-e29b-41d4-a716-446655440000") = false ∧
    isRandomValue (.num 78171233) = true ∧
    isRandomValue (.num (-50000000)) = true ∧
    isRandomValue (.num 25) = false ∧
    isRandomValue (.num 100) = false ∧
    (∀ b : Bool, isRandomValue (.bool b) = false) :=
  ⟨by decide, by decide, by decide, by decide, by decide, by decide, by decide⟩

/-- Claim C9: `sanitize` treats a null or empty collection as a no-op — for
every specification and user map, `sanitize(null, spec)` returns `null`, and
`sanitize({}, {})` returns `{}`. -/
theorem sanitize_empty_inputs :
    (∀ (spec : Option OpenSpec) (um : Option UserValueMap),
      sanitizeCollection none spec um = none) ∧
    (∀ um : Option UserValueMap,
      sanitizeCollection (some ⟨none⟩) (some ⟨[]⟩) um = some ⟨none⟩) :=
  ⟨fun _ _ => rfl, fun _ => rfl⟩

end Sanitizer

/-- Claim C1 counterexample: for the request with method GET and URL path
`['pets', ':petId']`, the Sanitizer's `buildEndpointKey` returns
`GET:/pets/(petId)` in brace form, but the Merger's `generateItemKey` returns
`GET:pets/:petId` — no leading slash and no colon-to-brace rewriting — so the
two engines do not produce the same normalized endpoint key. -/
theorem key_normalization_cex :
    Merge.generateItemKey Merge.mergerItemX "Pets/Get pet" = "GET:pets/:petId" ∧
    Sanitizer.buildEndpointKey (some Sanitizer.sanReqX) = "GET:/pets/\x7bpetId\x7d" ∧
    Merge.generateItemKey Merge.mergerItemX "Pets/Get pet" ≠
      Sanitizer.buildEndpointKey (some Sanitizer.sanReqX) :=
  ⟨by decide, by decide, by decide⟩

/-- Claim C1 (amended): the Sanitizer's `buildEndpointKey` normalizes to the
upper-cased method, ':', a leading '/', and the path joined with '/' with
colon-prefixed segments rewritten to brace form — giving `GET:/pets/(petId)`
(in braces) for path `['pets', ':petId']` — while the Merger's
`generateItemKey` is the plain method followed by ':' and the path joined with
'/' with no leading slash and no variable rewriting, giving `GET:pets/:petId`;
the two engines' keys differ on paths with variables. -/
theorem key_normalization_amended :
    (∀ (m : String) (segs : List String) (p nm : String) (e : Option (List Merge.Event))
        (resp : List String),
      Merge.generateItemKey (.leaf nm (some ⟨some m, some (.uobj (some (.parr segs)))⟩) e resp) p
        = m ++ ":" ++ OPS.joinSlash segs) ∧
    (∀ (m : String) (segs : List String) (uv : List Sanitizer.SUrlVar)
        (b : Option Sanitizer.JVal),
      Sanitizer.buildEndpointKey (some ⟨some m, some segs, uv, b⟩)
        = OPS.toUpperStr m ++ ":/" ++ OPS.joinSlash (segs.map Sanitizer.convertSegment)) ∧
    Merge.generateItemKey Merge.mergerItemX "Pets/Get pet" = "GET:pets/:petId" ∧
    Sanitizer.buildEndpointKey (some Sanitizer.sanReqX) = "GET:/pets/\x7bpetId\x7d" :=
  ⟨fun _ _ _ _ _ _ => rfl, fun _ _ _ _ => rfl, by decide, by decide⟩
